import Mathlib

/-!
Verification of the terminal git dashboard core (app controller, revlog tab,
text input component, stash layer) against its natural-language specification.

The Rust sources are shallowly embedded:
* `usize` arithmetic becomes `Nat` (so `saturating_sub` is truncated
  subtraction `-` on `Nat`);
* the `f32` scroll speed is embedded as an exact rational (`ℚ`); the spec's
  claims about it are algebraic (multiply, reset, clamp) and survive this
  choice, which is noted where it matters;
* wall-clock time (`Instant`) is embedded by passing the elapsed
  milliseconds of each move explicitly;
* fallible calls return `Option` (`none` models a Rust panic or `Err` where
  the distinction matters, as noted per definition);
* external collaborators (libgit2 calls) are environments of response
  functions.
-/

namespace Gitui

/-! ### Scroll velocity state (tabs/revlog/mod.rs, update_scroll_speed) -/

def REPEATED_SCROLL_THRESHOLD_MILLIS : Nat := 300

/-- 0.1_f32 as an exact rational. -/
def SCROLL_SPEED_START : ℚ := 1 / 10

/-- 10_f32 as an exact rational. -/
def SCROLL_SPEED_MAX : ℚ := 10

/-- 1.05_f32 as an exact rational. -/
def SCROLL_SPEED_MULTIPLIER : ℚ := 21 / 20

/-- Embedding of `Revlog::update_scroll_speed`: the wall-clock pair
`(Instant, f32)` is replaced by passing the elapsed milliseconds since the
previous move; returns the new speed. -/
def update_scroll_speed (sinceLastScrollMillis : Nat) (speed : ℚ) : ℚ :=
  let s :=
    if sinceLastScrollMillis < REPEATED_SCROLL_THRESHOLD_MILLIS then
      speed * SCROLL_SPEED_MULTIPLIER
    else
      SCROLL_SPEED_START
  min s SCROLL_SPEED_MAX

/-- Feeding a sequence of move intents (their elapsed-milliseconds gaps) to
the scroll-velocity state. -/
def run_scroll_speed (speed : ℚ) (moves : List Nat) : ℚ :=
  moves.foldl (fun sp e => update_scroll_speed e sp) speed

/-- Initial scroll speed set by `Revlog::new`: `(Instant::now(), 0_f32)`. -/
def REVLOG_INITIAL_SCROLL_SPEED : ℚ := 0

/-! ### Revlog selection movement (tabs/revlog/mod.rs, move_selection) -/

inductive ScrollType
  | Up
  | Down
  | PageUp
  | PageDown
  | Home
  | End
deriving DecidableEq

/-- Embedding of `Revlog::move_selection` lines 123-140: the `match` over the
scroll type followed by the clamp `selection = min(selection, selection_max)`.
`speed_int` and `page_offset` arrive precomputed (as in the source, where
`speed_int = usize::try_from(speed as i64).unwrap().max(1)` and
`page_offset = usize::from(current_size.1).saturating_sub(1)`). -/
def new_selection (scroll : ScrollType) (speed_int page_offset selection selection_max : Nat) : Nat :=
  let sel :=
    match scroll with
    | ScrollType.Up => selection - speed_int
    | ScrollType.Down => selection + speed_int
    | ScrollType.PageUp => selection - page_offset
    | ScrollType.PageDown => selection + page_offset
    | ScrollType.Home => 0
    | ScrollType.End => selection_max
  min sel selection_max

/-- The step size computed by `move_selection` from the current speed:
`usize::try_from(speed as i64).unwrap().max(1)`; for the nonnegative speeds
produced by `update_scroll_speed` the `as i64` truncation equals the floor. -/
def speed_step (speed : ℚ) : Nat :=
  max ⌊speed⌋.toNat 1

/-! ### Command enumeration (app.rs, App::commands; components mod) -/

inductive CommandBlocking
  | Blocking
  | PassingOn
deriving DecidableEq

/-- Modelled from the spec: the `components` module (CommandInfo) is not
under src. From the call sites in src and spec section 4.4,
`CommandInfo::new(text, enabled, available)` makes a quick-bar entry with
default order, `.hidden()` drops it from the quick bar, `.order(n)` sets the
sort key. -/
structure CommandInfo where
  name : String
  enabled : Bool
  available : Bool
  order_key : Int
  quick_bar : Bool
deriving DecidableEq

def CommandInfo.new (name : String) (enabled available : Bool) : CommandInfo :=
  { name := name, enabled := enabled, available := available,
    order_key := 0, quick_bar := true }

def CommandInfo.hidden (c : CommandInfo) : CommandInfo :=
  { c with quick_bar := false }

def CommandInfo.set_order (c : CommandInfo) (n : Int) : CommandInfo :=
  { c with order_key := n }

/-- Modelled from the spec: command-name string constants live in the
`strings` module, which is not under src; their values are immaterial. -/
def SCROLL_CMD_TEXT : String := "scroll"

def TOGGLE_TABS_CMD_TEXT : String := "toggle tabs"

def QUIT_CMD_TEXT : String := "quit"

/-- A component as seen by `App::commands`: `commands(&mut res, force_all)`
appends entries to the accumulator and returns a blocking verdict; both may
depend on `force_all`. -/
structure CmdComponent where
  push : Bool → List CommandInfo
  blocking : Bool → CommandBlocking

/-- Embedding of the loop in `App::commands`: each component pushes its
commands, then `if c.commands(..) != CommandBlocking::PassingOn && !force_all
{ break; }`. -/
def commands_loop : List CmdComponent → Bool → List CommandInfo
  | [], _ => []
  | c :: rest, force_all =>
    c.push force_all ++
      (if c.blocking force_all ≠ CommandBlocking.PassingOn ∧ force_all = false then []
       else commands_loop rest force_all)

/-- Embedding of `App::commands`: the component loop followed by the two
global entries (toggle-tabs, hidden; quit, order 100). -/
def app_commands (comps : List CmdComponent) (force_all any_popup_visible : Bool) :
    List CommandInfo :=
  commands_loop comps force_all ++
    [(CommandInfo.new TOGGLE_TABS_CMD_TEXT true (!any_popup_visible)).hidden,
     (CommandInfo.new QUIT_CMD_TEXT true (!any_popup_visible)).set_order 100]

/-- Embedding of `<Revlog as Component>::commands`: pushes the scroll command
(enabled iff visible, available iff visible or force_all) and blocks iff
visible. -/
def revlog_commands (visible : Bool) (out : List CommandInfo) (force_all : Bool) :
    List CommandInfo × CommandBlocking :=
  (out ++ [CommandInfo.new SCROLL_CMD_TEXT visible (visible || force_all)],
   if visible then CommandBlocking.Blocking else CommandBlocking.PassingOn)

/-- The revlog tab as a `CmdComponent` (same push and verdict as
`revlog_commands`). -/
def revlog_cmd_component (visible : Bool) : CmdComponent :=
  { push := fun force_all => [CommandInfo.new SCROLL_CMD_TEXT visible (visible || force_all)],
    blocking := fun _ =>
      if visible then CommandBlocking.Blocking else CommandBlocking.PassingOn }

/-! ### Change-flag bitset and internal action queue (queue.rs is not under
src; modelled from the spec and the uses in app.rs) -/

/-- Modelled from the spec: `NeedsUpdate` bitset `{DIFF, COMMANDS, ALL}`,
independent dirty bits closed under bitwise OR; `queue.rs` is not under src. -/
structure NeedsUpdate where
  all : Bool
  diff : Bool
  commands : Bool
deriving DecidableEq

def NeedsUpdate.empty : NeedsUpdate :=
  { all := false, diff := false, commands := false }

def NeedsUpdate.ALL : NeedsUpdate :=
  { all := true, diff := false, commands := false }

def NeedsUpdate.DIFF : NeedsUpdate :=
  { all := false, diff := true, commands := false }

def NeedsUpdate.COMMANDS : NeedsUpdate :=
  { all := false, diff := false, commands := true }

/-- Bitwise OR (the `insert` of the bitflags type). -/
def NeedsUpdate.union (a b : NeedsUpdate) : NeedsUpdate :=
  { all := a.all || b.all, diff := a.diff || b.diff, commands := a.commands || b.commands }

/-- Bitflags `contains`: every bit of `b` is set in `a`. -/
def NeedsUpdate.contains (a b : NeedsUpdate) : Bool :=
  (!b.all || a.all) && (!b.diff || a.diff) && (!b.commands || a.commands)

/-- Modelled from the spec: `InternalEvent` (queue.rs, not under src) is the
closed tagged union used by the match in `App::process_internal_event`;
payloads read off the src call sites (`reset_item.path`,
`reset_item.is_folder`, hunk hash, message string, raw flags). -/
inductive InternalEvent
  | ResetItem (path : String) (is_folder : Bool)
  | ConfirmResetItem (path : String) (is_folder : Bool)
  | AddHunk (hash : Nat)
  | ShowMsg (msg : String)
  | Update (u : NeedsUpdate)
  | OpenCommit
deriving DecidableEq

/-- Results of the external repository calls made by
`App::process_internal_event`; `unstage_hunk` returns `Result<bool>`
(`none` models `Err`), the others are only inspected through `is_ok()`. -/
structure GitEnv where
  reset_workdir_folder_ok : String → Bool
  reset_workdir_file_ok : String → Bool
  unstage_hunk : String → Nat → Option Bool
  stage_hunk_ok : String → Nat → Bool

/-- The part of the `App` state read or written by
`App::process_internal_event`: the status tab's selection (read by AddHunk),
the reset-confirmation popup, the message popup, the commit popup. -/
structure AppCore where
  selected_path : Option (String × Bool)
  reset_open_for : Option (String × Bool)
  msg_shown : Option String
  commit_visible : Bool
deriving DecidableEq

/-- The `App` state relevant to the queue cycle: the internal action queue
(a VecDeque drained from the front) plus the core above. -/
structure AppState where
  queue : List InternalEvent
  core : AppCore
deriving DecidableEq

/-- Embedding of the match arms of `App::process_internal_event` on the
queue-free part of the state (the source body never touches `self.queue`).
Returns the updated core and the `NeedsUpdate` flags; `none` models a panic:
the `AddHunk` unstage arm calls `sync::unstage_hunk(..).unwrap()`, so an
`Err` there aborts, while the other arms use `is_ok()`. -/
def process_internal_event_core (env : GitEnv) (c : AppCore) :
    InternalEvent → Option (AppCore × NeedsUpdate)
  | InternalEvent.ResetItem path is_folder =>
    if is_folder then
      some (c, if env.reset_workdir_folder_ok path then NeedsUpdate.ALL else NeedsUpdate.empty)
    else
      some (c, if env.reset_workdir_file_ok path then NeedsUpdate.ALL else NeedsUpdate.empty)
  | InternalEvent.ConfirmResetItem path is_folder =>
    some ({ c with reset_open_for := some (path, is_folder) }, NeedsUpdate.COMMANDS)
  | InternalEvent.AddHunk hash =>
    match c.selected_path with
    | some (path, is_stage) =>
      if is_stage then
        match env.unstage_hunk path hash with
        | some b => some (c, if b then NeedsUpdate.ALL else NeedsUpdate.empty)
        | none => none
      else
        some (c, if env.stage_hunk_ok path hash then NeedsUpdate.ALL else NeedsUpdate.empty)
    | none => some (c, NeedsUpdate.empty)
  | InternalEvent.ShowMsg m =>
    some ({ c with msg_shown := some m }, NeedsUpdate.ALL)
  | InternalEvent.Update u => some (c, u)
  | InternalEvent.OpenCommit =>
    some ({ c with commit_visible := true }, NeedsUpdate.empty)

/-- `App::process_internal_event` on the full state (`&mut self`): lifts the
core handler; the queue field is passed through untouched, as in the source. -/
def process_internal_event (env : GitEnv) (s : AppState) (ev : InternalEvent) :
    Option (AppState × NeedsUpdate) :=
  (process_internal_event_core env s.core ev).map
    (fun x => ({ s with core := x.1 }, x.2))

/-- Embedding of the loop in `App::process_queue`: pop the front of the live
queue, process it (the handler sees the already-popped queue, as
`pop_front` happens first), OR the flags, repeat until the pop yields
nothing; `none` propagates a panic from an event handler. -/
def process_queue_go (env : GitEnv) (s : AppState) (flags : NeedsUpdate) :
    Option (AppState × NeedsUpdate) :=
  match h : s.queue with
  | [] => some (s, flags)
  | e :: rest =>
    match h2 : process_internal_event env { s with queue := rest } e with
    | some x => process_queue_go env x.1 (flags.union x.2)
    | none => none
termination_by s.queue.length
decreasing_by
  simp only [process_internal_event, Option.map_eq_some'] at h2
  obtain ⟨a, _, hx⟩ := h2
  rw [← hx]
  simp [h]

/-- `App::process_queue`: run the drain loop starting from empty flags (the
trailing `queue.clear()` is a no-op, since the loop only exits on an empty
queue). -/
def process_queue (env : GitEnv) (s : AppState) : Option (AppState × NeedsUpdate) :=
  process_queue_go env s NeedsUpdate.empty

/-- Reference fold for C5 (stated from the spec's words): process a fixed
list of events in FIFO order, threading state and OR-ing flags. Compared
with the live-queue loop `process_queue_go` in the C5 theorem. -/
def drain_in_order (env : GitEnv) :
    List InternalEvent → AppState → NeedsUpdate → Option (AppState × NeedsUpdate)
  | [], s, flags => some (s, flags)
  | e :: rest, s, flags =>
    match process_internal_event env s e with
    | some x => drain_in_order env rest x.1 (flags.union x.2)
    | none => none

/-- The flags accumulated by steps 1-2 of `App::event` before the queue is
drained: `COMMANDS` if the component tree consumed the input, else
`COMMANDS` if the tab-toggle key matched, else nothing. -/
def pump_flags (consumed_by_pump tab_toggle_key : Bool) : NeedsUpdate :=
  if consumed_by_pump then NeedsUpdate.COMMANDS
  else if tab_toggle_key then NeedsUpdate.COMMANDS
  else NeedsUpdate.empty

/-- Embedding of the flag plumbing of `App::event`: dispatch flags, then the
fully drained queue's flags, then the three `contains` checks that decide
which refreshes run (update / update_diff / update_commands). -/
def app_event (env : GitEnv) (s : AppState) (consumed_by_pump tab_toggle_key : Bool) :
    Option (AppState × (Bool × Bool × Bool)) :=
  match process_queue env s with
  | some x =>
    let flags := (pump_flags consumed_by_pump tab_toggle_key).union x.2
    some (x.1,
      (flags.contains NeedsUpdate.ALL, flags.contains NeedsUpdate.DIFF,
       flags.contains NeedsUpdate.COMMANDS))
  | none => none

/-! ### Revlog tab state and update cycle (tabs/revlog/mod.rs) -/

def ELEMENTS_PER_LINE : Nat := 10

def SLICE_SIZE : Nat := 1200

/-- One row of display-ready commit metadata. The hash is kept as a
character list (git hashes are ASCII hex, so Rust's byte slicing of it
coincides with character slicing). -/
structure LogEntry where
  hash : List Char
  time : String
  author : String
  msg : String
deriving DecidableEq

/-- Modelled from the spec: `tabs/revlog/utils.rs` (ItemBatch) is not under
src. Spec section 3: `{ index_offset, items }`, `items[i]` corresponds to
global index `index_offset + i`. -/
structure ItemBatch where
  index_offset : Nat
  items : List LogEntry
deriving DecidableEq

/-- Modelled from the spec: `needs_data` is true iff the requested selection
index falls outside `[index_offset, index_offset + items.len())` or the
batch is empty (spec section 3); the `idx_max` argument is part of the
source signature. -/
def ItemBatch.needs_data (b : ItemBatch) (idx _idx_max : Nat) : Bool :=
  b.items.isEmpty || idx < b.index_offset || b.index_offset + b.items.length ≤ idx

/-- Modelled from the spec: `set_items` atomically replaces the batch
wholesale (spec sections 3 and 4.2). -/
def ItemBatch.set_items (_b : ItemBatch) (offset : Nat) (items : List LogEntry) : ItemBatch :=
  { index_offset := offset, items := items }

/-- The session tag mapping `sync::Tags` (CommitId to tag names), embedded
as an association list keyed by the full hash. -/
def Tags := List (List Char × List String)

def Tags.is_empty (t : Tags) : Bool :=
  List.isEmpty t

def Tags.get (t : Tags) (key : List Char) : Option (List String) :=
  (t.find? (fun p => p.1 == key)).map (fun p => p.2)

/-- Results of the external calls made by `Revlog::update` and
`Revlog::fetch_commits`: the async log's discovered count and commit-id
sequence, the batched `sync::get_commits_info` lookup (`none` models `Err`),
and `sync::get_tags`. -/
structure RevlogEnv where
  log_count : Nat
  log_hashes : List (List Char)
  commit_info : List (List Char) → Nat → Option (List LogEntry)
  repo_tags : List (List Char × List String)

/-- `AsyncLog::get_slice(start, size)`: up to `size` ids from logical index
`start`, fewer if not yet discovered; never blocks. -/
def log_get_slice (env : RevlogEnv) (start size : Nat) : List (List Char) :=
  (env.log_hashes.drop start).take size

/-- The `Revlog` struct fields the claims are about; the wall-clock half of
`scroll_state` is embedded by passing elapsed milliseconds to moves. -/
structure RevlogState where
  selection : Nat
  selection_max : Nat
  items : ItemBatch
  visible : Bool
  first_open_done : Bool
  scroll_speed : ℚ
  tags : Tags
  current_size : Nat × Nat
  scroll_top : Nat

/-- `Revlog::new`: empty batch, selection 0/0, invisible, speed 0.0, no
tags. -/
def Revlog.newState : RevlogState :=
  { selection := 0, selection_max := 0,
    items := { index_offset := 0, items := [] },
    visible := false, first_open_done := false,
    scroll_speed := REVLOG_INITIAL_SCROLL_SPEED,
    tags := [], current_size := (0, 0), scroll_top := 0 }

/-- Embedding of `Revlog::fetch_commits`: `want_min = selection -
SLICE_SIZE/2` (saturating), a `get_slice(want_min, SLICE_SIZE)` request, and
`set_items` on success of `get_commits_info`. Also returns the issued fetch
window `(start, width)` so the fetch policy can be stated. -/
def Revlog.fetch_commits (env : RevlogEnv) (s : RevlogState) :
    RevlogState × (Nat × Nat) :=
  let want_min := s.selection - SLICE_SIZE / 2
  match env.commit_info (log_get_slice env want_min SLICE_SIZE) s.current_size.1 with
  | some commits =>
    ({ s with items := s.items.set_items want_min commits }, (want_min, SLICE_SIZE))
  | none => (s, (want_min, SLICE_SIZE))

/-- Embedding of `Revlog::update`: `selection_max = count().saturating_sub(1)`
(truncated subtraction on Nat), a conditional windowed fetch, and the lazy
tag load guarded by `tags.is_empty()`. Returns the state, the issued fetch
window if any, and whether `sync::get_tags` was called. -/
def Revlog.update (env : RevlogEnv) (s : RevlogState) :
    RevlogState × Option (Nat × Nat) × Bool :=
  let s1 := { s with selection_max := env.log_count - 1 }
  let step2 :=
    if s1.items.needs_data s1.selection s1.selection_max then
      (fun x : RevlogState × (Nat × Nat) => (x.1, some x.2)) (Revlog.fetch_commits env s1)
    else (s1, none)
  if step2.1.tags.is_empty then
    ({ step2.1 with tags := env.repo_tags }, step2.2, true)
  else (step2.1, step2.2, false)

/-! ### Revlog text assembly (tabs/revlog/mod.rs, add_entry and get_text) -/

inductive TuiColor
  | Blue
  | Yellow
  | Magenta
  | White
  | Green
  | Reset
deriving DecidableEq

structure TuiStyle where
  fg : Option TuiColor
  bg : Option TuiColor
deriving DecidableEq

def STYLE_TAG (selected : Bool) : TuiStyle :=
  { fg := some TuiColor.Yellow, bg := if selected then some TuiColor.Blue else none }

def STYLE_HASH (selected : Bool) : TuiStyle :=
  { fg := some TuiColor.Magenta, bg := if selected then some TuiColor.Blue else none }

/-- The selected time style uses White, the unselected one Blue (as in the
source constants). -/
def STYLE_TIME (selected : Bool) : TuiStyle :=
  if selected then { fg := some TuiColor.White, bg := some TuiColor.Blue }
  else { fg := some TuiColor.Blue, bg := none }

def STYLE_AUTHOR (selected : Bool) : TuiStyle :=
  { fg := some TuiColor.Green, bg := if selected then some TuiColor.Blue else none }

def STYLE_MSG (selected : Bool) : TuiStyle :=
  { fg := some TuiColor.Reset, bg := if selected then some TuiColor.Blue else none }

inductive TuiText
  | Raw (s : String)
  | Styled (s : String) (st : TuiStyle)
deriving DecidableEq

/-- Rust's panicking prefix slice `&s[0..n]` on an ASCII string embedded as
characters: `none` models the out-of-bounds panic. -/
def rust_slice_to (s : List Char) (n : Nat) : Option (List Char) :=
  if n ≤ s.length then some (s.take n) else none

/-- Embedding of `Revlog::add_entry`: pushes hash prefix, splitter, time,
splitter, author, splitter, tags, splitter, message, newline onto `txt`.
`none` models a panic: either the `&e.hash[0..7]` slice going out of bounds
or the trailing `assert_eq!(txt.len() - count_before, ELEMENTS_PER_LINE)`
failing. -/
def add_entry (e : LogEntry) (selected : Bool) (txt : List TuiText)
    (tags : Option String) : Option (List TuiText) :=
  match rust_slice_to e.hash 7 with
  | none => none
  | some hash7 =>
    let count_before := txt.length
    let splitter :=
      if selected then TuiText.Styled " " { fg := none, bg := some TuiColor.Blue }
      else TuiText.Raw " "
    let out := txt ++
      [TuiText.Styled (String.mk hash7) (STYLE_HASH selected),
       splitter,
       TuiText.Styled e.time (STYLE_TIME selected),
       splitter,
       TuiText.Styled e.author (STYLE_AUTHOR selected),
       splitter,
       TuiText.Styled (match tags with | some t => " " ++ t | none => "") (STYLE_TAG selected),
       splitter,
       TuiText.Styled e.msg (STYLE_MSG selected),
       TuiText.Raw "\n"]
    if out.length - count_before = ELEMENTS_PER_LINE then some out else none

/-- `Revlog::relative_selection`. -/
def Revlog.relative_selection (s : RevlogState) : Nat :=
  s.selection - s.items.index_offset

/-- The enumerated loop body of `Revlog::get_text`. -/
def get_text_go (tags : Tags) (sel : Nat) :
    Nat → List LogEntry → List TuiText → Option (List TuiText)
  | _, [], txt => some txt
  | idx, e :: rest, txt =>
    let tag := (Tags.get tags e.hash).map (fun ts => String.intercalate " " ts)
    match add_entry e (idx = sel) txt tag with
    | some txt2 => get_text_go tags sel (idx + 1) rest txt2
    | none => none

/-- Embedding of `Revlog::get_text`. -/
def Revlog.get_text (s : RevlogState) : Option (List TuiText) :=
  get_text_go s.tags (Revlog.relative_selection s) 0 s.items.items []

/-! ### Text input component (components/textinput.rs)

Rust strings are UTF-8 byte sequences indexed by byte position; they are
embedded as well-formed character lists, with byte positions made explicit
through `utf8Len` (the value of Rust's `char::len_utf8`). Slicing, insertion
and removal at a byte index panic in Rust when the index is out of bounds or
not on a character boundary; those operations return `none` exactly in the
panicking cases. -/

/-- Rust `char::len_utf8`. -/
def utf8Len (c : Char) : Nat :=
  if c.toNat < 0x80 then 1
  else if c.toNat < 0x800 then 2
  else if c.toNat < 0x10000 then 3
  else 4

/-- The byte length of the UTF-8 encoding (Rust `str::len`). -/
def byte_len : List Char → Nat
  | [] => 0
  | c :: cs => utf8Len c + byte_len cs

/-- Rust `str::is_char_boundary` on a well-formed string: the byte index is
a sum of the encoded lengths of a character prefix (0 and the total length
included; anything past the end is not a boundary). -/
def is_char_boundary (s : List Char) (i : Nat) : Bool :=
  match s, i with
  | _, 0 => true
  | [], _ + 1 => false
  | c :: cs, i + 1 =>
    if utf8Len c ≤ i + 1 then is_char_boundary cs (i + 1 - utf8Len c) else false

/-- Split a string at a byte index: succeeds with the two halves iff the
index is a character boundary within the string. -/
def split_at_byte : List Char → Nat → Option (List Char × List Char)
  | s, 0 => some ([], s)
  | [], _ + 1 => none
  | c :: cs, i + 1 =>
    if utf8Len c ≤ i + 1 then
      (split_at_byte cs (i + 1 - utf8Len c)).map (fun p => (c :: p.1, p.2))
    else none

/-- Rust `&s[i..j]` (panics unless `i ≤ j`, both are boundaries, `j ≤ len`). -/
def rust_str_slice (s : List Char) (i j : Nat) : Option (List Char) :=
  if i ≤ j then
    match split_at_byte s i with
    | some p =>
      match split_at_byte p.2 (j - i) with
      | some q => some q.1
      | none => none
    | none => none
  else none

/-- Rust `&s[i..]`. -/
def rust_str_slice_from (s : List Char) (i : Nat) : Option (List Char) :=
  (split_at_byte s i).map (fun p => p.2)

/-- Rust `&s[..i]`. -/
def rust_str_slice_to (s : List Char) (i : Nat) : Option (List Char) :=
  (split_at_byte s i).map (fun p => p.1)

/-- Rust `String::insert(i, c)` (panics if `i` is out of bounds or not a
boundary). -/
def rust_string_insert (s : List Char) (i : Nat) (c : Char) : Option (List Char) :=
  (split_at_byte s i).map (fun p => p.1 ++ c :: p.2)

/-- Rust `String::remove(i)` (panics if `i ≥ len` or not a boundary). -/
def rust_string_remove (s : List Char) (i : Nat) : Option (List Char) :=
  match split_at_byte s i with
  | some (a, _ :: b) => some (a ++ b)
  | _ => none

/-- The loop of `decr_cursor`: `while index > 0 && !is_char_boundary(index)
{ index -= 1 }`. -/
def scan_back (s : List Char) : Nat → Nat
  | 0 => 0
  | i + 1 => if is_char_boundary s (i + 1) then i + 1 else scan_back s i

/-- The loop of `next_char_position` with its remaining-byte count made an
explicit structural argument: `while index < len && !is_char_boundary(index)
{ index += 1 }`. -/
def scan_forward_go (s : List Char) : Nat → Nat → Nat
  | i, 0 => i
  | i, g + 1 =>
    if i < byte_len s ∧ is_char_boundary s i = false then scan_forward_go s (i + 1) g
    else i

def scan_forward (s : List Char) (i : Nat) : Nat :=
  scan_forward_go s i (byte_len s - i)

/-- The `TextInputComponent` fields the claims are about (`msg` and the byte
cursor). -/
structure TextInputState where
  msg : List Char
  cursor_position : Nat
deriving DecidableEq

/-- `TextInputComponent::new`: empty message, cursor 0. -/
def TextInput.newState : TextInputState :=
  { msg := [], cursor_position := 0 }

/-- `TextInputComponent::clear`. -/
def TextInput.clear (_s : TextInputState) : TextInputState :=
  { msg := [], cursor_position := 0 }

/-- `TextInputComponent::set_text`. -/
def TextInput.set_text (_s : TextInputState) (m : List Char) : TextInputState :=
  { msg := m, cursor_position := 0 }

/-- `TextInputComponent::next_char_position`. -/
def TextInput.next_char_position (s : TextInputState) : Option Nat :=
  if byte_len s.msg ≤ s.cursor_position then none
  else some (scan_forward s.msg (s.cursor_position + 1))

/-- `TextInputComponent::incr_cursor`. -/
def TextInput.incr_cursor (s : TextInputState) : TextInputState :=
  match TextInput.next_char_position s with
  | some pos => { s with cursor_position := pos }
  | none => s

/-- `TextInputComponent::decr_cursor`. -/
def TextInput.decr_cursor (s : TextInputState) : TextInputState :=
  { s with cursor_position := scan_back s.msg (s.cursor_position - 1) }

/-- `TextInputComponent::backspace`: decrement the cursor, then remove the
character now under it; `none` models a panic in `remove`. -/
def TextInput.backspace (s : TextInputState) : Option TextInputState :=
  if 0 < s.cursor_position then
    (rust_string_remove (TextInput.decr_cursor s).msg
        (TextInput.decr_cursor s).cursor_position).map
      (fun m => { TextInput.decr_cursor s with msg := m })
  else some s

/-- The key events handled by `<TextInputComponent as Component>::event`
(a plain character without CTRL, and the six editing keys). -/
inductive InputKey
  | Character (c : Char)
  | Delete
  | Backspace
  | Left
  | Right
  | Home
  | End
deriving DecidableEq

/-- Embedding of the key-event match in the component's `event`. -/
def TextInput.handle_key : InputKey → TextInputState → Option TextInputState
  | InputKey.Character c, s =>
    (rust_string_insert s.msg s.cursor_position c).map
      (fun m => TextInput.incr_cursor { s with msg := m })
  | InputKey.Delete, s =>
    if s.cursor_position < byte_len s.msg then
      (rust_string_remove s.msg s.cursor_position).map (fun m => { s with msg := m })
    else some s
  | InputKey.Backspace, s => TextInput.backspace s
  | InputKey.Left, s => some (TextInput.decr_cursor s)
  | InputKey.Right, s => some (TextInput.incr_cursor s)
  | InputKey.Home, s => some { s with cursor_position := 0 }
  | InputKey.End, s => some { s with cursor_position := byte_len s.msg }

/-- One public operation on the component. -/
inductive TextOp
  | SetText (m : List Char)
  | Clear
  | Key (k : InputKey)

def TextInput.apply_op : TextOp → TextInputState → Option TextInputState
  | TextOp.SetText m, s => some (TextInput.set_text s m)
  | TextOp.Clear, s => some (TextInput.clear s)
  | TextOp.Key k, s => TextInput.handle_key k s

def TextInput.run_ops_from (s : TextInputState) : List TextOp → Option TextInputState
  | [] => some s
  | op :: rest =>
    match TextInput.apply_op op s with
    | some s2 => TextInput.run_ops_from s2 rest
    | none => none

/-- Every sequence of public operations starting from `new`. -/
def TextInput.run_ops (ops : List TextOp) : Option TextInputState :=
  TextInput.run_ops_from TextInput.newState ops

/-- The `"\u{21b5}"` glyph substituted for a newline under the cursor. -/
def NEWLINE_GLPYH : List Char := ['↵']

/-- Embedding of `TextInputComponent::build_new_string`: prefix of `msg`
before the cursor, the character under the cursor (or a space at the end,
with a newline replaced by the glyph), then the rest of `msg`. All slices
index `msg`; `none` models a panic. -/
def TextInput.build_new_string (s : TextInputState) : Option (List Char) :=
  match (if 0 < s.cursor_position then rust_str_slice_to s.msg s.cursor_position else some []) with
  | none => none
  | some a =>
    match
      (match TextInput.next_char_position s with
       | none => some [' ']
       | some pos => rust_str_slice s.msg s.cursor_position pos) with
    | none => none
    | some c =>
      let mid := if c = ['\n'] then NEWLINE_GLPYH else c
      match
        (match TextInput.next_char_position s with
         | some pos =>
           if pos < byte_len s.msg then rust_str_slice_from s.msg pos else some []
         | none => some []) with
      | none => none
      | some t => some (a ++ mid ++ t)

/-- Embedding of `TextInputComponent::get_draw_text` (content only, styles
dropped): builds `s = build_new_string()`, then pushes `s[..cursor]` when the
cursor is not at the start, the cursor character taken from `msg`, and
`s[pos..]` when a next position exists below `msg`'s length. The outer
slices index the REBUILT string `s` at byte positions computed on `msg`;
`none` models a panic. -/
def TextInput.get_draw_text (s : TextInputState) : Option (List (List Char)) :=
  match TextInput.build_new_string s with
  | none => none
  | some s2 =>
    match (if 0 < s.cursor_position then
             (rust_str_slice_to s2 s.cursor_position).map (fun a => [a])
           else some []) with
    | none => none
    | some pieces =>
      match
        (match TextInput.next_char_position s with
         | none => some [' ']
         | some pos => rust_str_slice s.msg s.cursor_position pos) with
      | none => none
      | some cpiece =>
        match
          (match TextInput.next_char_position s with
           | some pos =>
             if pos < byte_len s.msg then
               (rust_str_slice_from s2 pos).map (fun t => [t])
             else some []
           | none => some []) with
        | none => none
        | some tpieces => some (pieces ++ [cpiece] ++ tpieces)

/-- The invariant claimed for the component: the cursor is at most the byte
length of `msg` and sits on a character boundary. -/
def TextInput.cursor_ok (s : TextInputState) : Prop :=
  s.cursor_position ≤ byte_len s.msg ∧ is_char_boundary s.msg s.cursor_position = true

instance (s : TextInputState) : Decidable (TextInput.cursor_ok s) :=
  decidable_of_iff
    (s.cursor_position ≤ byte_len s.msg ∧
      is_char_boundary s.msg s.cursor_position = true) Iff.rfl

/-! ### Stash layer (asyncgit/src/sync/stash.rs) -/

/-- Modelled from the spec: the repository-access layer (libgit2) is an
external collaborator; this is the state `get_stashes`/`stash` act on:
current branch name, working-tree changes (untracked files included), and
the stash list, newest first. -/
structure RepoModel where
  branch : String
  changed_files : List String
  stash_msgs : List String
deriving DecidableEq

/-- A fresh repository as produced by the tests' `repo_init` (an initial
commit on master, clean working tree, no stashes). -/
def repo_init : RepoModel :=
  { branch := "master", changed_files := [], stash_msgs := [] }

/-- Creating an untracked file in the working tree. -/
def create_untracked_file (r : RepoModel) (name : String) : RepoModel :=
  { r with changed_files := r.changed_files ++ [name] }

/-- Modelled from the spec: libgit2 `stash_save` with `INCLUDE_UNTRACKED`
records an entry titled `On {branch}: {message}`, clears the working tree,
and fails when there is nothing to stash (the src test_smoke expects the
failure on a clean tree). -/
def stash_save (r : RepoModel) (message : String) : Option RepoModel :=
  if r.changed_files.isEmpty then none
  else
    some { r with changed_files := [],
                  stash_msgs := ("On " ++ r.branch ++ ": " ++ message) :: r.stash_msgs }

/-- Embedding of `stash` (stash.rs): open the repository, take the default
signature, call `stash_save` with `INCLUDE_UNTRACKED`. -/
def stash (r : RepoModel) (message : String) : Option RepoModel :=
  stash_save r message

/-- Embedding of `get_stashes` (stash.rs): `stash_foreach` pushes each stash
message in order. -/
def get_stashes (r : RepoModel) : List String :=
  r.stash_msgs

/-- The tests' `get_statuses`: count of work-dir changes and of conflicts. -/
def get_statuses (r : RepoModel) : Nat × Nat :=
  (r.changed_files.length, 0)

/-! ### Concrete sample values used by witness statements -/

def sample_env : GitEnv :=
  { reset_workdir_folder_ok := fun _ => false
    reset_workdir_file_ok := fun _ => false
    unstage_hunk := fun _ _ => some false
    stage_hunk_ok := fun _ _ => false }

def sample_core : AppCore :=
  { selected_path := some ("a.rs", false)
    reset_open_for := none
    msg_shown := none
    commit_visible := false }

def sample_queue_state : AppState :=
  { queue := [InternalEvent.ShowMsg "hi", InternalEvent.Update NeedsUpdate.DIFF]
    core := sample_core }

/-- A repository environment with an empty tag set. -/
def sample_empty_tags_env : RevlogEnv :=
  { log_count := 0, log_hashes := [], commit_info := fun _ _ => none, repo_tags := [] }

/-- A repository environment with five discovered commits and one tag. -/
def sample_revlog_env : RevlogEnv :=
  { log_count := 5
    log_hashes := [['a'], ['b'], ['c'], ['d'], ['e']]
    commit_info := fun _ _ => none
    repo_tags := [(['a'], ["v1"])] }

def sample_log_entry : LogEntry :=
  { hash := ['0', '1', '2', '3', '4', '5', '6', '7', '8']
    time := "now", author := "ann", msg := "fix" }

def sample_short_entry : LogEntry :=
  { hash := ['0', '1'], time := "now", author := "ann", msg := "fix" }

def sample_revlog_state : RevlogState :=
  { Revlog.newState with
      items := { index_offset := 0, items := [sample_log_entry] } }

/-- A revlog state whose tag mapping is already loaded and non-empty. -/
def sample_tagged_state : RevlogState :=
  { Revlog.newState with tags := [(['a'], ["v1"])] }

/-- Helper for C2: while the cap is never hit, a run of rapid moves is the
iterated multiplication. -/
theorem run_scroll_speed_rapid_pow (n : Nat) :
    ∀ s : ℚ, 0 ≤ s → s * SCROLL_SPEED_MULTIPLIER ^ n ≤ SCROLL_SPEED_MAX →
      run_scroll_speed s (List.replicate n 0) = s * SCROLL_SPEED_MULTIPLIER ^ n := by
  induction n with
  | zero =>
    intro s _ _
    simp [run_scroll_speed]
  | succ n ih =>
    intro s hs hcap
    have hmul : s * SCROLL_SPEED_MULTIPLIER ≤ s * SCROLL_SPEED_MULTIPLIER ^ (n + 1) := by
      have h1 : SCROLL_SPEED_MULTIPLIER ^ 1 ≤ SCROLL_SPEED_MULTIPLIER ^ (n + 1) :=
        pow_le_pow_right₀ (by norm_num [SCROLL_SPEED_MULTIPLIER]) (by omega)
      calc s * SCROLL_SPEED_MULTIPLIER = s * SCROLL_SPEED_MULTIPLIER ^ 1 := by ring
        _ ≤ s * SCROLL_SPEED_MULTIPLIER ^ (n + 1) := by
            exact mul_le_mul_of_nonneg_left h1 hs
    have hstep : update_scroll_speed 0 s = s * SCROLL_SPEED_MULTIPLIER := by
      simp only [update_scroll_speed, REPEATED_SCROLL_THRESHOLD_MILLIS]
      rw [if_pos (by omega)]
      exact min_eq_left (le_trans hmul hcap)
    have hrest : run_scroll_speed s (List.replicate (n + 1) 0) =
        run_scroll_speed (update_scroll_speed 0 s) (List.replicate n 0) := by
      simp [run_scroll_speed, List.replicate_succ]
    rw [hrest, hstep,
      ih (s * SCROLL_SPEED_MULTIPLIER)
        (mul_nonneg hs (by norm_num [SCROLL_SPEED_MULTIPLIER]))
        (by rw [mul_assoc, ← pow_succ']; exact hcap)]
    ring

/-- C2 (amended): a move arriving less than the 300ms threshold after the
previous one multiplies the speed by 1.05 and caps it at 10.0; a move at or
after the threshold resets it to 0.1; after every update the speed is at most
10.0, and it is at least 0.1 provided it already was (the speed installed by
`Revlog::new` is 0.0, not 0.1, and stays 0.0 under rapid moves, so the lower
bound of the claimed interval only holds once some move has reset the speed);
starting from the reset value 0.1, 50 rapid moves yield exactly
min(10.0, 0.1 * 1.05^50). -/
theorem c2_scroll_speed_amended :
    (∀ e : Nat, ∀ sp : ℚ, e < REPEATED_SCROLL_THRESHOLD_MILLIS →
      update_scroll_speed e sp = min (sp * SCROLL_SPEED_MULTIPLIER) SCROLL_SPEED_MAX) ∧
    (∀ e : Nat, ∀ sp : ℚ, REPEATED_SCROLL_THRESHOLD_MILLIS ≤ e →
      update_scroll_speed e sp = SCROLL_SPEED_START) ∧
    (∀ e : Nat, ∀ sp : ℚ, update_scroll_speed e sp ≤ SCROLL_SPEED_MAX) ∧
    (∀ e : Nat, ∀ sp : ℚ, SCROLL_SPEED_START ≤ sp →
      SCROLL_SPEED_START ≤ update_scroll_speed e sp) ∧
    run_scroll_speed SCROLL_SPEED_START (List.replicate 50 0) =
      min SCROLL_SPEED_MAX (SCROLL_SPEED_START * SCROLL_SPEED_MULTIPLIER ^ 50) := by
  refine ⟨?_, ?_, ?_, ?_, ?_⟩
  · intro e sp h
    simp only [update_scroll_speed]
    rw [if_pos h]
  · intro e sp h
    simp only [update_scroll_speed]
    rw [if_neg (by omega)]
    exact min_eq_left (by norm_num [SCROLL_SPEED_START, SCROLL_SPEED_MAX])
  · intro e sp
    simp only [update_scroll_speed]
    exact min_le_right _ _
  · intro e sp h
    simp only [update_scroll_speed]
    by_cases hrep : e < REPEATED_SCROLL_THRESHOLD_MILLIS
    · rw [if_pos hrep]
      refine le_min ?_ (by norm_num [SCROLL_SPEED_START, SCROLL_SPEED_MAX])
      have hsp : (0 : ℚ) ≤ sp :=
        le_trans (by norm_num [SCROLL_SPEED_START]) h
      calc SCROLL_SPEED_START ≤ sp := h
        _ ≤ sp * SCROLL_SPEED_MULTIPLIER :=
            le_mul_of_one_le_right hsp (by norm_num [SCROLL_SPEED_MULTIPLIER])
    · rw [if_neg hrep]
      exact le_min (le_refl _) (by norm_num [SCROLL_SPEED_START, SCROLL_SPEED_MAX])
  · have hcap : SCROLL_SPEED_START * SCROLL_SPEED_MULTIPLIER ^ 50 ≤ SCROLL_SPEED_MAX := by
      norm_num [SCROLL_SPEED_START, SCROLL_SPEED_MULTIPLIER, SCROLL_SPEED_MAX]
    rw [run_scroll_speed_rapid_pow 50 SCROLL_SPEED_START
      (by norm_num [SCROLL_SPEED_START]) hcap]
    exact (min_eq_right hcap).symm

/-- C2 counterexample: the claim asserts that after every update the speed
lies in [0.1, 10.0]. But `Revlog::new` initializes the speed to 0.0 and a
rapid first move (elapsed 0ms < 300ms) multiplies it by 1.05, leaving 0.0,
which is strictly below 0.1: the code has no lower clamp. -/
theorem c2_scroll_speed_counterexample :
    update_scroll_speed 0 REVLOG_INITIAL_SCROLL_SPEED = 0 ∧
    ¬ SCROLL_SPEED_START ≤ update_scroll_speed 0 REVLOG_INITIAL_SCROLL_SPEED := by
  have h : update_scroll_speed 0 REVLOG_INITIAL_SCROLL_SPEED = 0 := by
    simp only [update_scroll_speed, REVLOG_INITIAL_SCROLL_SPEED,
      REPEATED_SCROLL_THRESHOLD_MILLIS]
    rw [if_pos (by omega), zero_mul]
    exact min_eq_left (by norm_num [SCROLL_SPEED_MAX])
  refine ⟨h, ?_⟩
  rw [h]
  norm_num [SCROLL_SPEED_START]

/-- Witness for C2 (amended) at concrete inputs. -/
theorem c2_scroll_speed_witness :
    update_scroll_speed 0 (1/2 : ℚ) = min ((1/2 : ℚ) * SCROLL_SPEED_MULTIPLIER) SCROLL_SPEED_MAX ∧
    update_scroll_speed 300 (1/2 : ℚ) = SCROLL_SPEED_START ∧
    SCROLL_SPEED_START ≤ update_scroll_speed 42 SCROLL_SPEED_START :=
  ⟨c2_scroll_speed_amended.1 0 (1/2) (by decide),
   c2_scroll_speed_amended.2.1 300 (1/2) (by decide),
   c2_scroll_speed_amended.2.2.2.1 42 SCROLL_SPEED_START (le_refl _)⟩

/-- C3: the selection clamp of `Revlog::move_selection`: Down at
`selection_max` and Up at 0 leave the selection unchanged, Home/End land
exactly on 0 / `selection_max`, every move ends at most at `selection_max`,
and an unobstructed Down move advances by exactly max(1, floor(speed)). -/
theorem c3_move_selection_clamp :
    ∀ k p sel selmax : Nat,
      new_selection ScrollType.Down k p selmax selmax = selmax ∧
      new_selection ScrollType.Up k p 0 selmax = 0 ∧
      new_selection ScrollType.Home k p sel selmax = 0 ∧
      new_selection ScrollType.End k p sel selmax = selmax ∧
      (∀ scroll : ScrollType, new_selection scroll k p sel selmax ≤ selmax) ∧
      (∀ speed : ℚ, sel + speed_step speed ≤ selmax →
        new_selection ScrollType.Down (speed_step speed) p sel selmax = sel + speed_step speed) := by
  intro k p sel selmax
  refine ⟨?_, ?_, ?_, ?_, ?_, ?_⟩
  · simp only [new_selection]
    exact min_eq_right (Nat.le_add_right _ _)
  · simp only [new_selection, Nat.zero_sub]
    exact min_eq_left (Nat.zero_le _)
  · simp only [new_selection]
    exact min_eq_left (Nat.zero_le _)
  · simp only [new_selection]
    exact min_self _
  · intro scroll
    simp only [new_selection]
    exact min_le_right _ _
  · intro speed h
    simp only [new_selection]
    exact min_eq_left h

/-- C4: in the command enumeration, with `force_all = false` the first
component whose verdict is `Blocking` ends the loop, so no later component
contributes; with `force_all = true` every component contributes regardless
of verdicts; and the revlog tab's `commands` blocks exactly when visible. -/
theorem c4_command_blocking :
    (∀ pre : List CmdComponent, ∀ b : CmdComponent, ∀ post : List CmdComponent,
      (∀ c ∈ pre, c.blocking false = CommandBlocking.PassingOn) →
      b.blocking false = CommandBlocking.Blocking →
      commands_loop (pre ++ b :: post) false =
        (pre.map (fun c => c.push false)).flatten ++ b.push false) ∧
    (∀ comps : List CmdComponent,
      commands_loop comps true = (comps.map (fun c => c.push true)).flatten) ∧
    (∀ out : List CommandInfo, ∀ force_all : Bool,
      (revlog_commands true out force_all).2 = CommandBlocking.Blocking ∧
      (revlog_commands false out force_all).2 = CommandBlocking.PassingOn) := by
  refine ⟨?_, ?_, ?_⟩
  · intro pre
    induction pre with
    | nil =>
      intro b post _ hb
      simp [commands_loop, hb]
    | cons c pre ih =>
      intro b post hpass hb
      have hc : c.blocking false = CommandBlocking.PassingOn :=
        hpass c (List.mem_cons_self c pre)
      have hrest : ∀ d ∈ pre, d.blocking false = CommandBlocking.PassingOn :=
        fun d hd => hpass d (List.mem_cons_of_mem c hd)
      simp [commands_loop, hc, ih b post hrest hb]
  · intro comps
    induction comps with
    | nil => simp [commands_loop]
    | cons c rest ih => simp [commands_loop, ih]
  · intro out force_all
    exact ⟨rfl, rfl⟩

/-- Witness for C4 at a concrete component list (invisible revlog passing
on, then a visible blocking revlog, then one more component). -/
theorem c4_command_blocking_witness :
    commands_loop
        [revlog_cmd_component false, revlog_cmd_component true,
         revlog_cmd_component false] false =
      ([revlog_cmd_component false].map (fun c => c.push false)).flatten ++
        (revlog_cmd_component true).push false := by
  exact c4_command_blocking.1 [revlog_cmd_component false] (revlog_cmd_component true)
    [revlog_cmd_component false]
    (by simp [revlog_cmd_component]) rfl

/-- C1 (amended): when a queued repository-mutating effect fails, the
application state is unchanged and `ALL` is not raised — for a reset of a
file or folder whose sync call errs, for a stage-hunk whose sync call errs,
and for an unstage-hunk that returns Ok(false) ("nothing to unstage"). The
exception forced by the counterexample: an unstage-hunk whose sync call
errs aborts the process (the source calls `.unwrap()` on it). -/
theorem c1_failed_effects_amended :
    ∀ env : GitEnv, ∀ s : AppState, ∀ path : String, ∀ hash : Nat,
      (env.reset_workdir_folder_ok path = false →
        process_internal_event env s (InternalEvent.ResetItem path true) =
          some (s, NeedsUpdate.empty)) ∧
      (env.reset_workdir_file_ok path = false →
        process_internal_event env s (InternalEvent.ResetItem path false) =
          some (s, NeedsUpdate.empty)) ∧
      (∀ p : String, s.core.selected_path = some (p, false) →
        env.stage_hunk_ok p hash = false →
        process_internal_event env s (InternalEvent.AddHunk hash) =
          some (s, NeedsUpdate.empty)) ∧
      (∀ p : String, s.core.selected_path = some (p, true) →
        env.unstage_hunk p hash = some false →
        process_internal_event env s (InternalEvent.AddHunk hash) =
          some (s, NeedsUpdate.empty)) ∧
      (∀ p : String, s.core.selected_path = some (p, true) →
        env.unstage_hunk p hash = none →
        process_internal_event env s (InternalEvent.AddHunk hash) = none) := by
  intro env s path hash
  refine ⟨?_, ?_, ?_, ?_, ?_⟩
  · intro h
    simp [process_internal_event, process_internal_event_core, h]
  · intro h
    simp [process_internal_event, process_internal_event_core, h]
  · intro p hsel h
    simp [process_internal_event, process_internal_event_core, hsel, h]
  · intro p hsel h
    simp [process_internal_event, process_internal_event_core, hsel, h]
  · intro p hsel h
    simp [process_internal_event, process_internal_event_core, hsel, h]

/-- C1 counterexample: the claim says a failing repository call never
crashes the process; but an `AddHunk` on a staged selection whose
`unstage_hunk` call errs hits `.unwrap()` and panics (`none`). -/
theorem c1_failed_effects_counterexample :
    process_internal_event
      { reset_workdir_folder_ok := fun _ => false
        reset_workdir_file_ok := fun _ => false
        unstage_hunk := fun _ _ => none
        stage_hunk_ok := fun _ _ => false }
      { queue := []
        core := { selected_path := some ("src/main.rs", true)
                  reset_open_for := none
                  msg_shown := none
                  commit_visible := false } }
      (InternalEvent.AddHunk 3) = none := rfl

/-- Witness for C1 (amended): a failing folder reset and a failing stage are
silent no-ops at concrete inputs. -/
theorem c1_failed_effects_witness :
    process_internal_event
        { reset_workdir_folder_ok := fun _ => false
          reset_workdir_file_ok := fun _ => false
          unstage_hunk := fun _ _ => some false
          stage_hunk_ok := fun _ _ => false }
        { queue := []
          core := { selected_path := some ("a.rs", false)
                    reset_open_for := none
                    msg_shown := none
                    commit_visible := false } }
        (InternalEvent.ResetItem "dir" true) =
      some ({ queue := []
              core := { selected_path := some ("a.rs", false)
                        reset_open_for := none
                        msg_shown := none
                        commit_visible := false } }, NeedsUpdate.empty) ∧
    process_internal_event
        { reset_workdir_folder_ok := fun _ => false
          reset_workdir_file_ok := fun _ => false
          unstage_hunk := fun _ _ => some false
          stage_hunk_ok := fun _ _ => false }
        { queue := []
          core := { selected_path := some ("a.rs", false)
                    reset_open_for := none
                    msg_shown := none
                    commit_visible := false } }
        (InternalEvent.AddHunk 7) =
      some ({ queue := []
              core := { selected_path := some ("a.rs", false)
                        reset_open_for := none
                        msg_shown := none
                        commit_visible := false } }, NeedsUpdate.empty) := by
  constructor
  · exact (c1_failed_effects_amended _ _ "dir" 7).1 rfl
  · exact (c1_failed_effects_amended _ _ "dir" 7).2.2.1 "a.rs" rfl rfl

/-- Witness for C3 at concrete inputs. -/
theorem c3_move_selection_witness :
    new_selection ScrollType.Down 2 5 9 9 = 9 ∧
    new_selection ScrollType.Down (speed_step 1) 5 3 9 = 3 + speed_step 1 := by
  refine ⟨(c3_move_selection_clamp 2 5 9 9).1, ?_⟩
  exact (c3_move_selection_clamp (speed_step 1) 5 3 9).2.2.2.2.2 1
    (by simp [speed_step, Int.floor_one])

/-- Helper for C5: the live-queue drain loop equals the FIFO fold over the
queue contents present when draining starts (strong induction on the queue
length). -/
theorem drain_loop_eq_fifo :
    ∀ n : Nat, ∀ env : GitEnv, ∀ s : AppState, ∀ flags : NeedsUpdate,
      s.queue.length ≤ n →
      process_queue_go env s flags =
        drain_in_order env s.queue { s with queue := [] } flags := by
  intro n
  induction n with
  | zero =>
    intro env s flags hlen
    obtain ⟨q, core⟩ := s
    have hq : q = [] := List.eq_nil_of_length_eq_zero (Nat.le_zero.mp hlen)
    subst hq
    simp [process_queue_go, drain_in_order]
  | succ n ih =>
    intro env s flags hlen
    obtain ⟨q, core⟩ := s
    cases q with
    | nil => simp [process_queue_go, drain_in_order]
    | cons e rest =>
      rw [process_queue_go]
      simp only
      split
      · rename_i x heq
        simp only [process_internal_event, Option.map_eq_some'] at heq
        obtain ⟨a, ha, hx⟩ := heq
        simp only [drain_in_order, process_internal_event, ha, Option.map_some']
        rw [← hx]
        have hres := ih env { queue := rest, core := a.1 } (flags.union a.2)
          (by simpa using Nat.le_of_succ_le_succ hlen)
        simpa using hres
      · rename_i heq
        simp only [process_internal_event, Option.map_eq_none'] at heq
        simp [drain_in_order, process_internal_event, heq]

/-- Helper for C5: the handlers never touch the queue, so the FIFO fold
leaves the queue of the threaded state unchanged. -/
theorem drain_in_order_queue_eq :
    ∀ env : GitEnv, ∀ l : List InternalEvent, ∀ s : AppState, ∀ flags : NeedsUpdate,
      ∀ x, drain_in_order env l s flags = some x → x.1.queue = s.queue := by
  intro env l
  induction l with
  | nil =>
    intro s flags x hx
    simp only [drain_in_order, Option.some.injEq] at hx
    cases hx
    rfl
  | cons e rest ih =>
    intro s flags x hx
    rw [drain_in_order] at hx
    rcases hy : process_internal_event env s e with _ | y
    · rw [hy] at hx
      simp at hx
    · rw [hy] at hx
      have hq : y.1.queue = s.queue := by
        simp only [process_internal_event, Option.map_eq_some'] at hy
        obtain ⟨a, _, hya⟩ := hy
        rw [← hya]
      rw [← hq]
      exact ih y.1 (flags.union y.2) x hx

/-- C5: one call of `App::process_queue` drains the queue in FIFO order
(it equals the in-order fold over exactly the events present at drain
start — handlers never enqueue, so nothing new is processed in the pass),
the queue is empty afterward, and `App::event` acts on the OR of the pump
flags with the drained flags only after draining completes. -/
theorem c5_queue_cycle :
    ∀ env : GitEnv, ∀ s : AppState, ∀ flags : NeedsUpdate,
      (process_queue_go env s flags =
        drain_in_order env s.queue { s with queue := [] } flags) ∧
      (∀ x, process_queue env s = some x → x.1.queue = []) ∧
      (∀ cp tk : Bool, ∀ y, app_event env s cp tk = some y →
        ∃ qfl, process_queue env s = some (y.1, qfl) ∧ y.1.queue = [] ∧
          y.2.1 = ((pump_flags cp tk).union qfl).contains NeedsUpdate.ALL ∧
          y.2.2.1 = ((pump_flags cp tk).union qfl).contains NeedsUpdate.DIFF ∧
          y.2.2.2 = ((pump_flags cp tk).union qfl).contains NeedsUpdate.COMMANDS) := by
  intro env s flags
  have hempty : ∀ x, process_queue env s = some x → x.1.queue = [] := by
    intro x hx
    rw [process_queue,
      drain_loop_eq_fifo s.queue.length env s NeedsUpdate.empty (le_refl _)] at hx
    simpa using drain_in_order_queue_eq env s.queue _ NeedsUpdate.empty x hx
  refine ⟨drain_loop_eq_fifo s.queue.length env s flags (le_refl _), hempty, ?_⟩
  intro cp tk y hy
  rcases hq : process_queue env s with _ | x
  · rw [app_event, hq] at hy
    simp at hy
  · rw [app_event, hq] at hy
    simp only [Option.some.injEq] at hy
    obtain ⟨x1, x2⟩ := x
    subst hy
    exact ⟨x2, rfl, hempty (x1, x2) hq, rfl, rfl, rfl⟩

/-- Witness for C5: a two-event queue (show-message, then a raw DIFF
injection) drains to the expected state, flags and empty queue. -/
theorem c5_queue_cycle_witness :
    process_queue sample_env sample_queue_state =
      some ({ queue := [], core := { sample_core with msg_shown := some "hi" } },
        NeedsUpdate.union (NeedsUpdate.union NeedsUpdate.empty NeedsUpdate.ALL)
          NeedsUpdate.DIFF) ∧
    ({ queue := [], core := { sample_core with msg_shown := some "hi" } } : AppState).queue
      = [] := by
  have hrun : process_queue sample_env sample_queue_state =
      some ({ queue := [], core := { sample_core with msg_shown := some "hi" } },
        NeedsUpdate.union (NeedsUpdate.union NeedsUpdate.empty NeedsUpdate.ALL)
          NeedsUpdate.DIFF) := by
    simp [process_queue, process_queue_go, process_internal_event,
      process_internal_event_core, sample_env, sample_queue_state, sample_core]
  exact ⟨hrun,
    (c5_queue_cycle sample_env sample_queue_state NeedsUpdate.empty).2.1 _ hrun⟩

/-- Helper for C6/C7: `fetch_commits` does not touch the tag mapping or the
selection bound, and always issues the window
`(selection - SLICE_SIZE/2, SLICE_SIZE)`. -/
theorem fetch_commits_effects :
    ∀ env : RevlogEnv, ∀ s : RevlogState,
      (Revlog.fetch_commits env s).1.tags = s.tags ∧
      (Revlog.fetch_commits env s).1.selection_max = s.selection_max ∧
      (Revlog.fetch_commits env s).2 = (s.selection - SLICE_SIZE / 2, SLICE_SIZE) := by
  intro env s
  simp only [Revlog.fetch_commits]
  split <;> simp

/-- Helper for C6/C7: characterization of one `Revlog::update` call. -/
theorem update_effects :
    ∀ env : RevlogEnv, ∀ s : RevlogState,
      (Revlog.update env s).1.selection_max = env.log_count - 1 ∧
      (Revlog.update env s).2.2 = s.tags.is_empty ∧
      (Revlog.update env s).1.tags =
        (if s.tags.is_empty then env.repo_tags else s.tags) ∧
      (Revlog.update env s).2.1 =
        (if s.items.needs_data s.selection (env.log_count - 1) then
          some (s.selection - SLICE_SIZE / 2, SLICE_SIZE) else none) := by
  intro env s
  rcases fetch_commits_effects env { s with selection_max := env.log_count - 1 } with
    ⟨hft, hfs, hfr⟩
  by_cases hnd : s.items.needs_data s.selection (env.log_count - 1) = true
  · simp only [Revlog.update, hnd, if_true, hft, hfs, hfr]
    by_cases hte : s.tags.is_empty = true <;> simp_all
  · simp only [Revlog.update, hnd]
    by_cases hte : s.tags.is_empty = true <;> simp_all

/-- C6 (amended): the tag mapping is fetched by `Revlog::update` exactly
when the cached mapping is empty. Once a load returns a non-empty mapping,
no later update refetches or modifies it; but for a repository with an
empty tag set (the case forced by the counterexample), every update
refetches, because the emptiness guard cannot distinguish "never loaded"
from "loaded and empty". -/
theorem c6_tags_cache_amended :
    ∀ env : RevlogEnv, ∀ s : RevlogState,
      (s.tags.is_empty = false →
        (Revlog.update env s).1.tags = s.tags ∧ (Revlog.update env s).2.2 = false) ∧
      (s.tags.is_empty = true →
        (Revlog.update env s).1.tags = env.repo_tags ∧
          (Revlog.update env s).2.2 = true) := by
  intro env s
  rcases update_effects env s with ⟨_, h2, h3, _⟩
  constructor
  · intro hne
    exact ⟨by simp [h3, hne], by simp [h2, hne]⟩
  · intro he
    exact ⟨by simp [h3, he], by simp [h2, he]⟩

/-- C6 counterexample: on a repository whose tag set is empty, the first
`update` loads the tags (successfully, yielding an empty mapping) and the
second `update` fetches them again — refuting "loaded lazily at most once
... for every repository including one with an empty tag set". -/
theorem c6_tags_cache_counterexample :
    (Revlog.update sample_empty_tags_env Revlog.newState).2.2 = true ∧
    (Revlog.update sample_empty_tags_env
        (Revlog.update sample_empty_tags_env Revlog.newState).1).2.2 = true :=
  ⟨rfl, rfl⟩

/-- Witness for C6 (amended): with a non-empty cached mapping no refetch
happens; with an empty one the fetch stores the repository's tags. -/
theorem c6_tags_cache_witness :
    ((Revlog.update sample_revlog_env sample_tagged_state).1.tags =
        sample_tagged_state.tags ∧
      (Revlog.update sample_revlog_env sample_tagged_state).2.2 = false) ∧
    ((Revlog.update sample_revlog_env Revlog.newState).1.tags =
        sample_revlog_env.repo_tags ∧
      (Revlog.update sample_revlog_env Revlog.newState).2.2 = true) :=
  ⟨(c6_tags_cache_amended sample_revlog_env sample_tagged_state).1 rfl,
   (c6_tags_cache_amended sample_revlog_env Revlog.newState).2 rfl⟩

/-- C7: after every `Revlog::update`, `selection_max` is the discovered
count minus one (truncated at zero, as `saturating_sub(1)` on `usize`:
a count of zero gives 0), and when the cache needs data the issued fetch
window starts at `selection - SLICE_SIZE/2` (clamped at zero) with width
`SLICE_SIZE`; when it does not, no fetch is issued. -/
theorem c7_selection_max_and_fetch_window :
    ∀ env : RevlogEnv, ∀ s : RevlogState,
      (Revlog.update env s).1.selection_max = env.log_count - 1 ∧
      (s.items.needs_data s.selection (env.log_count - 1) = true →
        (Revlog.update env s).2.1 = some (s.selection - SLICE_SIZE / 2, SLICE_SIZE)) ∧
      (s.items.needs_data s.selection (env.log_count - 1) = false →
        (Revlog.update env s).2.1 = none) := by
  intro env s
  rcases update_effects env s with ⟨h1, _, _, h4⟩
  exact ⟨h1, fun h => by simp [h4, h], fun h => by simp [h4, h]⟩

/-- Witness for C7: five discovered commits and an empty cache give
`selection_max = 4` and a fetch window starting at 0 of width 1200; the
zero-count case of the same theorem gives `selection_max = 0`. -/
theorem c7_selection_max_witness :
    (Revlog.update sample_revlog_env Revlog.newState).1.selection_max =
      sample_revlog_env.log_count - 1 ∧
    (Revlog.update sample_revlog_env Revlog.newState).2.1 =
      some (Revlog.newState.selection - SLICE_SIZE / 2, SLICE_SIZE) ∧
    (Revlog.update sample_empty_tags_env Revlog.newState).1.selection_max =
      sample_empty_tags_env.log_count - 1 :=
  ⟨(c7_selection_max_and_fetch_window sample_revlog_env Revlog.newState).1,
   (c7_selection_max_and_fetch_window sample_revlog_env Revlog.newState).2.1 (by decide),
   (c7_selection_max_and_fetch_window sample_empty_tags_env Revlog.newState).1⟩

/-- C8: on a fresh repository `get_stashes` is empty; after creating an
untracked file and stashing with message "foo", `get_stashes` has exactly
one entry "On master: foo" and the working tree is clean again (0 changed,
0 conflicted). -/
theorem c8_stash_end_to_end :
    get_stashes repo_init = [] ∧
    get_statuses (create_untracked_file repo_init "foo.txt") = (1, 0) ∧
    (stash (create_untracked_file repo_init "foo.txt") "foo").map get_stashes =
      some ["On master: foo"] ∧
    (stash (create_untracked_file repo_init "foo.txt") "foo").map get_statuses =
      some (0, 0) := by
  decide

/-- Helper for C10: with a hash of at least 7 characters, `add_entry`
succeeds and appends exactly `ELEMENTS_PER_LINE` elements. -/
theorem add_entry_appends :
    ∀ e : LogEntry, ∀ sel : Bool, ∀ txt : List TuiText, ∀ tags : Option String,
      7 ≤ e.hash.length →
      ∃ out, add_entry e sel txt tags = some out ∧
        out.length = txt.length + ELEMENTS_PER_LINE := by
  intro e sel txt tags h
  simp only [add_entry, rust_slice_to, if_pos h]
  rw [if_pos (by simp [ELEMENTS_PER_LINE])]
  exact ⟨_, rfl, by simp [ELEMENTS_PER_LINE]⟩

/-- Helper for C10: the `get_text` loop appends `ELEMENTS_PER_LINE` elements
per cached item. -/
theorem get_text_go_length :
    ∀ tags : Tags, ∀ sel : Nat, ∀ items : List LogEntry, ∀ idx : Nat, ∀ txt : List TuiText,
      (∀ e ∈ items, 7 ≤ e.hash.length) →
      ∃ out, get_text_go tags sel idx items txt = some out ∧
        out.length = txt.length + ELEMENTS_PER_LINE * items.length := by
  intro tags sel items
  induction items with
  | nil =>
    intro idx txt _
    exact ⟨txt, rfl, by simp⟩
  | cons e rest ih =>
    intro idx txt hall
    obtain ⟨out1, h1, hlen1⟩ :=
      add_entry_appends e (decide (idx = sel)) txt
        ((Tags.get tags e.hash).map (fun ts => String.intercalate " " ts))
        (hall e (List.mem_cons_self e rest))
    obtain ⟨out2, h2, hlen2⟩ :=
      ih (idx + 1) out1 (fun d hd => hall d (List.mem_cons_of_mem e hd))
    refine ⟨out2, ?_, ?_⟩
    · simp only [get_text_go, h1]
      exact h2
    · rw [hlen2, hlen1]
      simp only [List.length_cons]
      ring

/-- C10: for every log entry whose hash has at least 7 characters,
`add_entry` appends exactly ELEMENTS_PER_LINE (10) text elements (so its
trailing assertion holds), `get_text` yields exactly 10 elements per cached
item, and a hash shorter than 7 makes the `&e.hash[0..7]` slice panic. -/
theorem c10_elements_per_line :
    (∀ e : LogEntry, ∀ sel : Bool, ∀ txt : List TuiText, ∀ tags : Option String,
      7 ≤ e.hash.length →
      ∃ out, add_entry e sel txt tags = some out ∧
        out.length = txt.length + ELEMENTS_PER_LINE) ∧
    (∀ s : RevlogState, (∀ e ∈ s.items.items, 7 ≤ e.hash.length) →
      ∃ out, Revlog.get_text s = some out ∧
        out.length = ELEMENTS_PER_LINE * s.items.items.length) ∧
    (∀ e : LogEntry, ∀ sel : Bool, ∀ txt : List TuiText, ∀ tags : Option String,
      e.hash.length < 7 → add_entry e sel txt tags = none) := by
  refine ⟨add_entry_appends, ?_, ?_⟩
  · intro s hall
    obtain ⟨out, h1, h2⟩ :=
      get_text_go_length s.tags (Revlog.relative_selection s) s.items.items 0 [] hall
    exact ⟨out, h1, by simpa using h2⟩
  · intro e sel txt tags h
    simp [add_entry, rust_slice_to, Nat.not_le.mpr h]

/-- Witness for C10: a 9-character hash yields 10 elements from an empty
accumulator and one cached item yields a 10-element text; a 2-character
hash panics. -/
theorem c10_elements_witness :
    (∃ out, add_entry sample_log_entry true [] none = some out ∧
      out.length = ([] : List TuiText).length + ELEMENTS_PER_LINE) ∧
    (∃ out, Revlog.get_text sample_revlog_state = some out ∧
      out.length = ELEMENTS_PER_LINE * sample_revlog_state.items.items.length) ∧
    add_entry sample_short_entry true [] none = none :=
  ⟨c10_elements_per_line.1 sample_log_entry true [] none (by decide),
   c10_elements_per_line.2.1 sample_revlog_state (by decide),
   c10_elements_per_line.2.2 sample_short_entry true [] none (by decide)⟩
theorem utf8Len_pos (c : Char) : 1 ≤ utf8Len c := by
  unfold utf8Len
  split_ifs <;> omega

theorem is_char_boundary_zero (s : List Char) : is_char_boundary s 0 = true := by
  cases s <;> rfl

theorem is_char_boundary_cons_add (c : Char) (rest : List Char) (n : Nat) :
    is_char_boundary (c :: rest) (utf8Len c + n) = is_char_boundary rest n := by
  rcases h : utf8Len c + n with _ | k
  · have := utf8Len_pos c
    omega
  · have h1 : utf8Len c ≤ k + 1 := by omega
    have h2 : k + 1 - utf8Len c = n := by omega
    simp only [is_char_boundary, if_pos h1, h2]

theorem byte_len_append (a b : List Char) :
    byte_len (a ++ b) = byte_len a + byte_len b := by
  induction a with
  | nil => simp [byte_len]
  | cons c a ih => simp [byte_len, ih]; omega

theorem is_char_boundary_append (a b : List Char) (j : Nat) :
    is_char_boundary (a ++ b) (byte_len a + j) = is_char_boundary b j := by
  induction a with
  | nil => simp [byte_len]
  | cons c a ih =>
    have : byte_len (c :: a) + j = utf8Len c + (byte_len a + j) := by
      simp [byte_len]; omega
    rw [this, List.cons_append, is_char_boundary_cons_add, ih]

theorem is_char_boundary_byte_len (s : List Char) :
    is_char_boundary s (byte_len s) = true := by
  have h := is_char_boundary_append s [] 0
  simpa [is_char_boundary] using h

theorem is_char_boundary_le (s : List Char) :
    ∀ i : Nat, is_char_boundary s i = true → i ≤ byte_len s := by
  induction s with
  | nil =>
    intro i h
    cases i with
    | zero => simp [byte_len]
    | succ k => simp [is_char_boundary] at h
  | cons c cs ih =>
    intro i h
    cases i with
    | zero => omega
    | succ k =>
      simp only [is_char_boundary] at h
      by_cases hc : utf8Len c ≤ k + 1
      · rw [if_pos hc] at h
        have := ih (k + 1 - utf8Len c) h
        simp only [byte_len]
        omega
      · rw [if_neg hc] at h
        exact absurd h (by simp)

theorem split_at_byte_some (s : List Char) :
    ∀ i : Nat, is_char_boundary s i = true →
      ∃ a b, split_at_byte s i = some (a, b) ∧ s = a ++ b ∧ byte_len a = i := by
  induction s with
  | nil =>
    intro i h
    cases i with
    | zero => exact ⟨[], [], rfl, rfl, rfl⟩
    | succ k => simp [is_char_boundary] at h
  | cons c cs ih =>
    intro i h
    cases i with
    | zero => exact ⟨[], c :: cs, rfl, rfl, rfl⟩
    | succ k =>
      simp only [is_char_boundary] at h
      by_cases hc : utf8Len c ≤ k + 1
      · rw [if_pos hc] at h
        obtain ⟨a, b, h1, h2, h3⟩ := ih (k + 1 - utf8Len c) h
        refine ⟨c :: a, b, ?_, by simp [h2], by simp [byte_len, h3]; omega⟩
        simp only [split_at_byte, if_pos hc, h1, Option.map_some']
      · rw [if_neg hc] at h
        exact absurd h (by simp)


theorem scan_back_spec (s : List Char) :
    ∀ i : Nat, is_char_boundary s (scan_back s i) = true ∧ scan_back s i ≤ i := by
  intro i
  induction i with
  | zero => exact ⟨is_char_boundary_zero s, le_refl 0⟩
  | succ k ih =>
    by_cases h : is_char_boundary s (k + 1) = true
    · simp only [scan_back, if_pos h]
      exact ⟨h, le_refl _⟩
    · simp only [scan_back, if_neg h]
      exact ⟨ih.1, Nat.le_succ_of_le ih.2⟩

theorem scan_forward_go_spec (s : List Char) :
    ∀ g i : Nat, byte_len s ≤ i + g → i ≤ byte_len s →
      is_char_boundary s (scan_forward_go s i g) = true ∧
      i ≤ scan_forward_go s i g ∧ scan_forward_go s i g ≤ byte_len s := by
  intro g
  induction g with
  | zero =>
    intro i hg hi
    have : i = byte_len s := by omega
    subst this
    exact ⟨is_char_boundary_byte_len s, le_refl _, le_refl _⟩
  | succ g ih =>
    intro i hg hi
    by_cases hcond : i < byte_len s ∧ is_char_boundary s i = false
    · simp only [scan_forward_go, if_pos hcond]
      obtain ⟨h1, h2, h3⟩ := ih (i + 1) (by omega) (by omega)
      exact ⟨h1, by omega, h3⟩
    · simp only [scan_forward_go, if_neg hcond]
      rcases Nat.lt_or_ge i (byte_len s) with hlt | hge
      · have hb : is_char_boundary s i = true := by
          rcases Bool.eq_false_or_eq_true (is_char_boundary s i) with ht | hf
          · exact ht
          · exact absurd ⟨hlt, hf⟩ hcond
        exact ⟨hb, le_refl _, hi⟩
      · have : i = byte_len s := by omega
        subst this
        exact ⟨is_char_boundary_byte_len s, le_refl _, le_refl _⟩

theorem scan_forward_spec (s : List Char) (i : Nat) (hi : i ≤ byte_len s) :
    is_char_boundary s (scan_forward s i) = true ∧
    i ≤ scan_forward s i ∧ scan_forward s i ≤ byte_len s :=
  scan_forward_go_spec s (byte_len s - i) i (by omega) hi

theorem rust_string_insert_some (s : List Char) (i : Nat) (c : Char)
    (h : is_char_boundary s i = true) :
    ∃ a b, rust_string_insert s i c = some (a ++ c :: b) ∧ s = a ++ b ∧
      byte_len a = i := by
  obtain ⟨a, b, h1, h2, h3⟩ := split_at_byte_some s i h
  exact ⟨a, b, by simp [rust_string_insert, h1], h2, h3⟩

theorem rust_string_remove_some (s : List Char) (i : Nat)
    (hb : is_char_boundary s i = true) (hlt : i < byte_len s) :
    ∃ a ch b, rust_string_remove s i = some (a ++ b) ∧ s = a ++ ch :: b ∧
      byte_len a = i := by
  obtain ⟨a, b, h1, h2, h3⟩ := split_at_byte_some s i hb
  cases b with
  | nil =>
    subst h2
    rw [byte_len_append] at hlt
    simp [byte_len] at hlt
    omega
  | cons ch b =>
    exact ⟨a, ch, b, by simp [rust_string_remove, h1], h2, h3⟩


theorem incr_cursor_ok (t : TextInputState) (h : TextInput.cursor_ok t) :
    TextInput.cursor_ok (TextInput.incr_cursor t) := by
  rw [TextInput.incr_cursor]
  rw [TextInput.next_char_position]
  by_cases hend : byte_len t.msg ≤ t.cursor_position
  · rw [if_pos hend]
    exact h
  · rw [if_neg hend]
    obtain ⟨h1, h2, h3⟩ := scan_forward_spec t.msg (t.cursor_position + 1) (by omega)
    exact ⟨by simpa using h3, by simpa using h1⟩

theorem decr_cursor_ok (t : TextInputState) (h : TextInput.cursor_ok t) :
    TextInput.cursor_ok (TextInput.decr_cursor t) := by
  rw [TextInput.decr_cursor]
  obtain ⟨h1, h2⟩ := scan_back_spec t.msg (t.cursor_position - 1)
  exact ⟨by simpa using is_char_boundary_le t.msg _ h1, by simpa using h1⟩

theorem handle_key_preserves (k : InputKey) (s : TextInputState)
    (h : TextInput.cursor_ok s) :
    ∃ s', TextInput.handle_key k s = some s' ∧ TextInput.cursor_ok s' := by
  obtain ⟨hle, hbd⟩ := h
  cases k with
  | Character c =>
    obtain ⟨a, b, hins, hs, hba⟩ := rust_string_insert_some s.msg s.cursor_position c hbd
    refine ⟨TextInput.incr_cursor { s with msg := a ++ c :: b }, ?_, ?_⟩
    · simp [TextInput.handle_key, hins]
    · apply incr_cursor_ok
      constructor
      · simp only
        rw [hs] at hle
        rw [byte_len_append] at hle ⊢
        simp [byte_len]
        omega
      · simp only
        have := is_char_boundary_append a (c :: b) 0
        rw [← hba]
        simpa [is_char_boundary_zero] using this
  | Delete =>
    by_cases hlt : s.cursor_position < byte_len s.msg
    · obtain ⟨a, ch, b, hrem, hs, hba⟩ := rust_string_remove_some s.msg s.cursor_position hbd hlt
      refine ⟨{ s with msg := a ++ b }, ?_, ?_, ?_⟩
      · simp [TextInput.handle_key, if_pos hlt, hrem]
      · simp only
        rw [byte_len_append, ← hba]
        omega
      · simp only
        have := is_char_boundary_append a b 0
        rw [← hba]
        simpa [is_char_boundary_zero] using this
    · exact ⟨s, by simp [TextInput.handle_key, if_neg hlt], hle, hbd⟩
  | Backspace =>
    by_cases hpos : 0 < s.cursor_position
    · obtain ⟨hb1, hb2⟩ := scan_back_spec s.msg (s.cursor_position - 1)
      have hdlt : scan_back s.msg (s.cursor_position - 1) < byte_len s.msg := by omega
      obtain ⟨a, ch, b, hrem, hs, hba⟩ :=
        rust_string_remove_some s.msg (scan_back s.msg (s.cursor_position - 1)) hb1 hdlt
      refine ⟨{ TextInput.decr_cursor s with msg := a ++ b }, ?_, ?_, ?_⟩
      · simp only [TextInput.handle_key, TextInput.backspace, if_pos hpos,
          TextInput.decr_cursor]
        simp [hrem]
      · simp only [TextInput.decr_cursor]
        rw [byte_len_append, ← hba]
        omega
      · simp only [TextInput.decr_cursor]
        have := is_char_boundary_append a b 0
        rw [← hba]
        simpa [is_char_boundary_zero] using this
    · refine ⟨s, ?_, hle, hbd⟩
      simp [TextInput.handle_key, TextInput.backspace, if_neg hpos]
  | Left => exact ⟨_, rfl, decr_cursor_ok s ⟨hle, hbd⟩⟩
  | Right => exact ⟨_, rfl, incr_cursor_ok s ⟨hle, hbd⟩⟩
  | Home => exact ⟨_, rfl, Nat.zero_le _, is_char_boundary_zero s.msg⟩
  | End => exact ⟨_, rfl, le_refl _, is_char_boundary_byte_len s.msg⟩

theorem apply_op_preserves (op : TextOp) (s : TextInputState)
    (h : TextInput.cursor_ok s) :
    ∃ s', TextInput.apply_op op s = some s' ∧ TextInput.cursor_ok s' := by
  cases op with
  | SetText m =>
    exact ⟨_, rfl, Nat.zero_le _, is_char_boundary_zero m⟩
  | Clear =>
    exact ⟨_, rfl, Nat.zero_le _, is_char_boundary_zero []⟩
  | Key k => exact handle_key_preserves k s h

theorem run_ops_from_preserves (ops : List TextOp) :
    ∀ s : TextInputState, TextInput.cursor_ok s →
      ∃ s', TextInput.run_ops_from s ops = some s' ∧ TextInput.cursor_ok s' := by
  induction ops with
  | nil => intro s h; exact ⟨s, rfl, h⟩
  | cons op rest ih =>
    intro s h
    obtain ⟨s1, h1, h2⟩ := apply_op_preserves op s h
    obtain ⟨s2, h3, h4⟩ := ih s1 h2
    exact ⟨s2, by simp [TextInput.run_ops_from, h1, h3], h4⟩


theorem rust_str_slice_some (s : List Char) (i j : Nat) (hij : i ≤ j)
    (hi : is_char_boundary s i = true) (hj : is_char_boundary s j = true) :
    ∃ out, rust_str_slice s i j = some out := by
  obtain ⟨a, b, h1, h2, h3⟩ := split_at_byte_some s i hi
  have hb : is_char_boundary b (j - i) = true := by
    have happ := is_char_boundary_append a b (j - i)
    have hj' : byte_len a + (j - i) = j := by omega
    rw [hj'] at happ
    rw [← happ, ← h2]
    exact hj
  obtain ⟨p, q, h4, _, _⟩ := split_at_byte_some b (j - i) hb
  exact ⟨p, by simp [rust_str_slice, if_pos hij, h1, h4]⟩

theorem next_char_position_some_spec (s : TextInputState) (pos : Nat)
    (hnext : TextInput.next_char_position s = some pos) :
    is_char_boundary s.msg pos = true ∧ s.cursor_position < pos ∧
      pos ≤ byte_len s.msg := by
  rw [TextInput.next_char_position] at hnext
  by_cases hend : byte_len s.msg ≤ s.cursor_position
  · rw [if_pos hend] at hnext
    simp at hnext
  · rw [if_neg hend] at hnext
    have hpos : scan_forward s.msg (s.cursor_position + 1) = pos := Option.some.inj hnext
    obtain ⟨h1, h2, h3⟩ := scan_forward_spec s.msg (s.cursor_position + 1) (by omega)
    rw [hpos] at h1 h2 h3
    exact ⟨h1, by omega, h3⟩

theorem build_new_string_some (s : TextInputState) (h : TextInput.cursor_ok s) :
    (TextInput.build_new_string s).isSome = true := by
  obtain ⟨hle, hbd⟩ := h
  have hfirst : ∃ a, (if 0 < s.cursor_position then
      rust_str_slice_to s.msg s.cursor_position else some []) = some a := by
    by_cases hp : 0 < s.cursor_position
    · obtain ⟨a, b, h1, _, _⟩ := split_at_byte_some s.msg s.cursor_position hbd
      exact ⟨a, by simp [if_pos hp, rust_str_slice_to, h1]⟩
    · exact ⟨[], by simp [if_neg hp]⟩
  obtain ⟨a, ha⟩ := hfirst
  have hmid : ∃ c, (match TextInput.next_char_position s with
      | none => some [' ']
      | some pos => rust_str_slice s.msg s.cursor_position pos) = some c := by
    cases hnext : TextInput.next_char_position s with
    | none => exact ⟨[' '], rfl⟩
    | some pos =>
      obtain ⟨h1, h2, h3⟩ := next_char_position_some_spec s pos hnext
      obtain ⟨c, hc⟩ := rust_str_slice_some s.msg s.cursor_position pos (by omega) hbd h1
      exact ⟨c, hc⟩
  obtain ⟨c, hc⟩ := hmid
  have htail : ∃ t, (match TextInput.next_char_position s with
      | some pos =>
        if pos < byte_len s.msg then rust_str_slice_from s.msg pos else some []
      | none => some []) = some t := by
    cases hnext : TextInput.next_char_position s with
    | none => exact ⟨[], rfl⟩
    | some pos =>
      by_cases hplt : pos < byte_len s.msg
      · obtain ⟨h1, h2, h3⟩ := next_char_position_some_spec s pos hnext
        obtain ⟨p, q, h4, _, _⟩ := split_at_byte_some s.msg pos h1
        exact ⟨q, by simp [if_pos hplt, rust_str_slice_from, h4]⟩
      · exact ⟨[], by simp [if_neg hplt]⟩
  obtain ⟨t, ht⟩ := htail
  rw [TextInput.build_new_string, ha, hc, ht]
  rfl

/-- C9: the cursor invariant is real — every sequence of public operations
from `new` succeeds (no panic in the event handler) and leaves the byte
cursor on a character boundary at most `msg`'s byte length, and
`build_new_string` never panics under the invariant. But `get_draw_text`
slices the REBUILT string at byte positions computed on `msg`: with
`msg = "a\nb"` and cursor 1 (reachable by set_text + Right), the newline
under the cursor is replaced by the 3-byte glyph and the slice `s[2..]`
hits the middle of it — the embedded `get_draw_text` panics (`none`),
while the component's own test `test_visualize_newline` expects 4 styled
texts from exactly this state. -/
theorem c9_cursor_boundary_invariant :
    (∀ ops : List TextOp, ∃ s, TextInput.run_ops ops = some s ∧
      TextInput.cursor_ok s) ∧
    (∀ s : TextInputState, TextInput.cursor_ok s →
      (TextInput.build_new_string s).isSome = true) ∧
    (TextInput.run_ops [TextOp.SetText ['a', '\n', 'b'], TextOp.Key InputKey.Right] =
        some { msg := ['a', '\n', 'b'], cursor_position := 1 } ∧
      TextInput.cursor_ok { msg := ['a', '\n', 'b'], cursor_position := 1 } ∧
      TextInput.get_draw_text { msg := ['a', '\n', 'b'], cursor_position := 1 } =
        none) := by
  refine ⟨?_, build_new_string_some, by decide, by decide, by decide⟩
  intro ops
  exact run_ops_from_preserves ops TextInput.newState
    ⟨Nat.zero_le _, is_char_boundary_zero []⟩

/-- Witness for C9 at concrete inputs: typing a two-byte character keeps the
invariant, and `build_new_string` succeeds on the state of the failing draw. -/
theorem c9_cursor_boundary_witness :
    (∃ s, TextInput.run_ops [TextOp.Key (InputKey.Character 'é')] = some s ∧
      TextInput.cursor_ok s) ∧
    (TextInput.build_new_string { msg := ['a', '\n', 'b'], cursor_position := 1 }).isSome
      = true :=
  ⟨c9_cursor_boundary_invariant.1 [TextOp.Key (InputKey.Character 'é')],
   c9_cursor_boundary_invariant.2.1 { msg := ['a', '\n', 'b'], cursor_position := 1 }
     (by decide)⟩

end Gitui
